import Mathlib

/-!
Verification of the pico-303 synthesizer core (firmware/pico-303).

Shallow embedding of the per-sample synthesis units over the reals:
`float` values are idealized as `ℝ`, `std::exp` as `Real.exp`,
`std::pow` as `Real.rpow`, and `fmod(x, 1.0f)` on nonnegative inputs
as `Int.fract`.  Each C++ class becomes a structure whose fields carry
the header's default member initializers, and each method becomes a
function from the structure (plus arguments) to the updated structure
and, for sample-producing methods, the returned sample.
-/

namespace Pico303

/-! ### Oscillator (Oscillator.h / Oscillator.cpp) -/

inductive Waveform
  | SAW
  | SQUARE
deriving DecidableEq

/-- Oscillator state: the private members of class `Oscillator` with the
default member initializers from Oscillator.h. -/
structure Oscillator where
  sampleRate : ℝ := 44100
  frequency : ℝ := 440
  phase : ℝ := 0
  phaseIncrement : ℝ := 0.01
  blend : ℝ := 0
  targetFreq : ℝ := 440
  glideSamples : ℝ := 0
  glideStep : ℝ := 0
  glideCounter : ℤ := 0
  subBlend : ℝ := 0
  subPhase : ℝ := 0
  subPhaseIncrement : ℝ := 0.005
  waveform : Waveform := .SAW
  jc303Mode : Bool := true
  pulseWidth : ℝ := 0.5

/-- A default-constructed oscillator. -/
noncomputable def Oscillator.init : Oscillator := {}

/-- Method `Oscillator::setSampleRate` (inline in the header). -/
def Oscillator.setSampleRate (s : Oscillator) (rate : ℝ) : Oscillator :=
  { s with sampleRate := rate }

/-- Method `Oscillator::setFrequency`: stores the frequency, recomputes both phase
increments and resets both phases to 0. -/
noncomputable def Oscillator.setFrequency (s : Oscillator) (f : ℝ) : Oscillator :=
  { s with frequency := f,
           phaseIncrement := f / s.sampleRate,
           subPhaseIncrement := f * 0.5 / s.sampleRate,
           phase := 0,
           subPhase := 0 }

/-- Method `Oscillator::setWaveform`. -/
def Oscillator.setWaveform (s : Oscillator) (w : Waveform) : Oscillator :=
  { s with waveform := w }

/-- Method `Oscillator::setBlend`: clamps the blend to `[0, 1]`. -/
noncomputable def Oscillator.setBlend (s : Oscillator) (b : ℝ) : Oscillator :=
  { s with blend := max 0 (min 1 b) }

/-- Method `Oscillator::setSubBlend`: clamps the sub-oscillator mix to `[0, 1]`. -/
noncomputable def Oscillator.setSubBlend (s : Oscillator) (b : ℝ) : Oscillator :=
  { s with subBlend := max 0 (min 1 b) }

/-- Method `Oscillator::setMode`: 0.53 pulse width in JC303 mode, 0.5 otherwise. -/
noncomputable def Oscillator.setMode (s : Oscillator) (jc303 : Bool) : Oscillator :=
  { s with jc303Mode := jc303, pulseWidth := if jc303 then 0.53 else 0.5 }

/-- Method `Oscillator::resetPhase` (inline in the header). -/
def Oscillator.resetPhase (s : Oscillator) : Oscillator :=
  { s with phase := 0, subPhase := 0 }

/-- Method `Oscillator::glideTo`: the glide length in samples is floored to 1,
the per-sample multiplicative step is `(target/current)^(1/glideSamples)`,
and the integer step counter is the truncation of `glideSamples`. -/
noncomputable def Oscillator.glideTo (s : Oscillator) (newFreq glideTimeMs : ℝ) :
    Oscillator :=
  let gs0 := glideTimeMs / 1000 * s.sampleRate
  let gs := if gs0 < 1 then 1 else gs0
  { s with targetFreq := newFreq,
           glideSamples := gs,
           glideStep := (newFreq / s.frequency) ^ ((1 : ℝ) / gs),
           glideCounter := ⌊gs⌋ }

/-- Method `Oscillator::tick`: while the glide counter is positive, multiply the
frequency by the glide step, recompute the increments, decrement. -/
noncomputable def Oscillator.tick (s : Oscillator) : Oscillator :=
  if 0 < s.glideCounter then
    let f := s.frequency * s.glideStep
    { s with frequency := f,
             phaseIncrement := f / s.sampleRate,
             subPhaseIncrement := f * 0.5 / s.sampleRate,
             glideCounter := s.glideCounter - 1 }
  else s

/-- Method `Oscillator::polyBLEP`: polynomial band-limited step correction near a
phase discontinuity. -/
noncomputable def Oscillator.polyBLEP (s : Oscillator) (t : ℝ) : ℝ :=
  if t < s.phaseIncrement then
    let u := t / s.phaseIncrement
    u + u - u * u - 1
  else if 1 - s.phaseIncrement < t then
    let u := (t - 1) / s.phaseIncrement
    u * u + u + u + 1
  else 0

/-- The wrap in `process`: `if (p >= 1.0f) p -= floorf(p);`. -/
noncomputable def wrap01 (x : ℝ) : ℝ := if 1 ≤ x then x - ⌊x⌋ else x

/-- The sawtooth branch of `Oscillator::process`: a phase-shifted ramp with
the polyBLEP correction at its discontinuity. -/
noncomputable def Oscillator.sawOf (s : Oscillator) : ℝ :=
  let shifted := Int.fract (s.phase + 0.5)
  2 * shifted - 1 - s.polyBLEP shifted

/-- The square branch of `Oscillator::process`: a variable-pulse-width pulse
with polyBLEP corrections at the rising edge (phase 0) and the falling edge
(phase `pulseWidth`). -/
noncomputable def Oscillator.squareOf (s : Oscillator) : ℝ :=
  (if s.phase < s.pulseWidth then (1 : ℝ) else -1)
    + s.polyBLEP s.phase
    - s.polyBLEP (Int.fract (s.phase + 1 - s.pulseWidth))

/-- The sub-oscillator sample of `Oscillator::process`: a half-frequency
naive square read from `subPhase`. -/
noncomputable def Oscillator.subValOf (s : Oscillator) : ℝ :=
  if s.subPhase < 0.5 then 1 else -1

/-- Method `Oscillator::process`: ticks the glide, blends square and saw, mixes the
sub-oscillator, scales by the 0.707 headroom factor, and advances and wraps
both phases.  Returns the updated state and the emitted sample. -/
noncomputable def Oscillator.process (s0 : Oscillator) : Oscillator × ℝ :=
  let s := s0.tick
  let value := (1 - s.blend) * s.squareOf + s.blend * s.sawOf
  let value2 := (1 - s.subBlend) * value + s.subBlend * s.subValOf
  ({ s with subPhase := wrap01 (s.subPhase + s.subPhaseIncrement),
            phase := wrap01 (s.phase + s.phaseIncrement) },
   value2 * 0.707)

/-- The oscillator states reachable through the public interface when every
sample rate and (target) frequency handed to it is strictly positive. -/
inductive Oscillator.Reachable : Oscillator → Prop
  | init : Oscillator.Reachable Oscillator.init
  | setSampleRate {s} (rate : ℝ) : 0 < rate → Oscillator.Reachable s →
      Oscillator.Reachable (s.setSampleRate rate)
  | setFrequency {s} (f : ℝ) : 0 < f → Oscillator.Reachable s →
      Oscillator.Reachable (s.setFrequency f)
  | setWaveform {s} (w : Waveform) : Oscillator.Reachable s →
      Oscillator.Reachable (s.setWaveform w)
  | setBlend {s} (b : ℝ) : Oscillator.Reachable s →
      Oscillator.Reachable (s.setBlend b)
  | setSubBlend {s} (b : ℝ) : Oscillator.Reachable s →
      Oscillator.Reachable (s.setSubBlend b)
  | setMode {s} (jc303 : Bool) : Oscillator.Reachable s →
      Oscillator.Reachable (s.setMode jc303)
  | resetPhase {s} : Oscillator.Reachable s →
      Oscillator.Reachable s.resetPhase
  | glideTo {s} (newFreq glideTimeMs : ℝ) : 0 < newFreq → Oscillator.Reachable s →
      Oscillator.Reachable (s.glideTo newFreq glideTimeMs)
  | tick {s} : Oscillator.Reachable s → Oscillator.Reachable s.tick
  | process {s} : Oscillator.Reachable s → Oscillator.Reachable s.process.1

/-- The oscillator data-model invariant: wrapped phases, positive frequency
and sample rate, nonnegative increments, a positive glide step while a glide
is in progress, clamped blends, and a pulse width of 0.5 or 0.53. -/
structure Oscillator.Inv (s : Oscillator) : Prop where
  phase_nonneg : 0 ≤ s.phase
  phase_lt_one : s.phase < 1
  subPhase_nonneg : 0 ≤ s.subPhase
  subPhase_lt_one : s.subPhase < 1
  frequency_pos : 0 < s.frequency
  sampleRate_pos : 0 < s.sampleRate
  phaseIncrement_nonneg : 0 ≤ s.phaseIncrement
  subPhaseIncrement_nonneg : 0 ≤ s.subPhaseIncrement
  glideStep_pos : 0 < s.glideCounter → 0 < s.glideStep
  blend_nonneg : 0 ≤ s.blend
  blend_le_one : s.blend ≤ 1
  subBlend_nonneg : 0 ≤ s.subBlend
  subBlend_le_one : s.subBlend ≤ 1
  pulseWidth_ge : 1/2 ≤ s.pulseWidth
  pulseWidth_le : s.pulseWidth ≤ 53/100

lemma wrap01_mem {x : ℝ} (hx : 0 ≤ x) : 0 ≤ wrap01 x ∧ wrap01 x < 1 := by
  unfold wrap01
  split
  · rw [Int.self_sub_floor]
    exact ⟨Int.fract_nonneg x, Int.fract_lt_one x⟩
  · exact ⟨hx, lt_of_not_le (by assumption)⟩

lemma Oscillator.Inv.tick {s : Oscillator} (h : s.Inv) : s.tick.Inv := by
  unfold Oscillator.tick
  split
  · rename_i hc
    have hf : 0 < s.frequency * s.glideStep :=
      mul_pos h.frequency_pos (h.glideStep_pos hc)
    exact
      { phase_nonneg := h.phase_nonneg
        phase_lt_one := h.phase_lt_one
        subPhase_nonneg := h.subPhase_nonneg
        subPhase_lt_one := h.subPhase_lt_one
        frequency_pos := hf
        sampleRate_pos := h.sampleRate_pos
        phaseIncrement_nonneg := le_of_lt (div_pos hf h.sampleRate_pos)
        subPhaseIncrement_nonneg :=
          le_of_lt (div_pos (by nlinarith) h.sampleRate_pos)
        glideStep_pos := fun _ => h.glideStep_pos hc
        blend_nonneg := h.blend_nonneg
        blend_le_one := h.blend_le_one
        subBlend_nonneg := h.subBlend_nonneg
        subBlend_le_one := h.subBlend_le_one
        pulseWidth_ge := h.pulseWidth_ge
        pulseWidth_le := h.pulseWidth_le }
  · exact h

lemma Oscillator.Inv.process {s : Oscillator} (h : s.Inv) : s.process.1.Inv := by
  have ht := h.tick
  have hp := wrap01_mem (add_nonneg ht.phase_nonneg ht.phaseIncrement_nonneg)
  have hsp := wrap01_mem (add_nonneg ht.subPhase_nonneg ht.subPhaseIncrement_nonneg)
  exact
    { phase_nonneg := hp.1
      phase_lt_one := hp.2
      subPhase_nonneg := hsp.1
      subPhase_lt_one := hsp.2
      frequency_pos := ht.frequency_pos
      sampleRate_pos := ht.sampleRate_pos
      phaseIncrement_nonneg := ht.phaseIncrement_nonneg
      subPhaseIncrement_nonneg := ht.subPhaseIncrement_nonneg
      glideStep_pos := ht.glideStep_pos
      blend_nonneg := ht.blend_nonneg
      blend_le_one := ht.blend_le_one
      subBlend_nonneg := ht.subBlend_nonneg
      subBlend_le_one := ht.subBlend_le_one
      pulseWidth_ge := ht.pulseWidth_ge
      pulseWidth_le := ht.pulseWidth_le }

lemma Oscillator.reachable_inv {s : Oscillator} (h : s.Reachable) : s.Inv := by
  induction h with
  | init =>
      exact
        { phase_nonneg := le_refl 0
          phase_lt_one := one_pos
          subPhase_nonneg := le_refl 0
          subPhase_lt_one := one_pos
          frequency_pos := by norm_num [Oscillator.init]
          sampleRate_pos := by norm_num [Oscillator.init]
          phaseIncrement_nonneg := by norm_num [Oscillator.init]
          subPhaseIncrement_nonneg := by norm_num [Oscillator.init]
          glideStep_pos := by norm_num [Oscillator.init]
          blend_nonneg := le_refl 0
          blend_le_one := zero_le_one
          subBlend_nonneg := le_refl 0
          subBlend_le_one := zero_le_one
          pulseWidth_ge := by norm_num [Oscillator.init]
          pulseWidth_le := by norm_num [Oscillator.init] }
  | setSampleRate rate hrate _ ih =>
      exact { ih with sampleRate_pos := hrate }
  | setFrequency f hf _ ih =>
      exact
        { ih with
          phase_nonneg := le_refl 0
          phase_lt_one := one_pos
          subPhase_nonneg := le_refl 0
          subPhase_lt_one := one_pos
          frequency_pos := hf
          phaseIncrement_nonneg := le_of_lt (div_pos hf ih.sampleRate_pos)
          subPhaseIncrement_nonneg :=
            le_of_lt (div_pos (by nlinarith) ih.sampleRate_pos) }
  | setWaveform w _ ih => exact { ih with }
  | setBlend b _ ih =>
      exact { ih with
              blend_nonneg := le_max_left 0 _
              blend_le_one := max_le zero_le_one (min_le_left 1 b) }
  | setSubBlend b _ ih =>
      exact { ih with
              subBlend_nonneg := le_max_left 0 _
              subBlend_le_one := max_le zero_le_one (min_le_left 1 b) }
  | setMode jc303 _ ih =>
      refine { ih with pulseWidth_ge := ?_, pulseWidth_le := ?_ } <;>
        · simp only [Oscillator.setMode]
          split <;> norm_num
  | resetPhase _ ih =>
      exact { ih with
              phase_nonneg := le_refl 0
              phase_lt_one := one_pos
              subPhase_nonneg := le_refl 0
              subPhase_lt_one := one_pos }
  | glideTo newFreq glideTimeMs hf _ ih =>
      refine { ih with glideStep_pos := fun _ => ?_ }
      exact Real.rpow_pos_of_pos (div_pos hf ih.frequency_pos) _
  | tick _ ih => exact ih.tick
  | process _ ih => exact ih.process

/-! #### Glide (portamento) trajectory -/

lemma Oscillator.tick_of_pos {s : Oscillator} (h : 0 < s.glideCounter) :
    s.tick = { s with
      frequency := s.frequency * s.glideStep,
      phaseIncrement := s.frequency * s.glideStep / s.sampleRate,
      subPhaseIncrement := s.frequency * s.glideStep * 0.5 / s.sampleRate,
      glideCounter := s.glideCounter - 1 } := by
  unfold Oscillator.tick
  rw [if_pos h]

lemma Oscillator.tick_of_nonpos {s : Oscillator} (h : s.glideCounter ≤ 0) :
    s.tick = s := by
  unfold Oscillator.tick
  rw [if_neg (not_lt.mpr h)]

lemma Oscillator.tick_iter (g : Oscillator) :
    ∀ k : ℕ, (k : ℤ) ≤ g.glideCounter →
      (Oscillator.tick^[k] g).frequency = g.frequency * g.glideStep ^ k ∧
      (Oscillator.tick^[k] g).glideCounter = g.glideCounter - k ∧
      (Oscillator.tick^[k] g).glideStep = g.glideStep := by
  intro k
  induction k with
  | zero => simp
  | succ k ih =>
      intro hk
      have hk' : (k : ℤ) ≤ g.glideCounter := by push_cast at hk ⊢; omega
      obtain ⟨hf, hc, hs⟩ := ih hk'
      have hpos : 0 < (Oscillator.tick^[k] g).glideCounter := by
        rw [hc]; push_cast at hk ⊢; omega
      rw [Function.iterate_succ_apply', Oscillator.tick_of_pos hpos]
      refine ⟨?_, ?_, hs⟩
      · simp only [hf, hs, pow_succ]; ring
      · simp only [hc]; push_cast; ring

/-- The C4 scenario: `glideTo(880, 100 ms)` from the default oscillator
(frequency 440 Hz, sample rate 44100 Hz). -/
noncomputable def glideScenario : Oscillator := Oscillator.init.glideTo 880 100

/-- Frequency after `k` samples of the C4 glide scenario. -/
noncomputable def glideFreqAt (k : ℕ) : ℝ :=
  (Oscillator.tick^[k] glideScenario).frequency

lemma glideScenario_frequency : glideScenario.frequency = 440 := by
  simp [glideScenario, Oscillator.glideTo, Oscillator.init]

lemma glideScenario_counter : glideScenario.glideCounter = 4410 := by
  simp only [glideScenario, Oscillator.glideTo, Oscillator.init]
  norm_num

lemma glideScenario_step : glideScenario.glideStep = (2 : ℝ) ^ ((1 : ℝ) / 4410) := by
  simp only [glideScenario, Oscillator.glideTo, Oscillator.init]
  norm_num

lemma glideScenario_step_pos : (0 : ℝ) < (2 : ℝ) ^ ((1 : ℝ) / 4410) :=
  Real.rpow_pos_of_pos (by norm_num) _

lemma glideScenario_step_gt_one : (1 : ℝ) < (2 : ℝ) ^ ((1 : ℝ) / 4410) := by
  rw [Real.one_lt_rpow_iff_of_pos (by norm_num)]
  exact Or.inl ⟨by norm_num, by norm_num⟩

lemma glideFreqAt_eq (k : ℕ) (hk : k ≤ 4410) :
    glideFreqAt k = 440 * ((2 : ℝ) ^ ((1 : ℝ) / 4410)) ^ k ∧
      (Oscillator.tick^[k] glideScenario).glideCounter = 4410 - (k : ℤ) := by
  have h := Oscillator.tick_iter glideScenario k
    (by rw [glideScenario_counter]; exact_mod_cast hk)
  rw [glideScenario_counter, glideScenario_frequency, glideScenario_step] at h
  exact ⟨h.1, h.2.1⟩

lemma glideFreqAt_congr {a b : ℕ}
    (h : Oscillator.tick^[a] glideScenario = Oscillator.tick^[b] glideScenario) :
    glideFreqAt a = glideFreqAt b :=
  congrArg Oscillator.frequency h

lemma glide_stall_add (j : ℕ) :
    Oscillator.tick^[4410 + j] glideScenario = Oscillator.tick^[4410] glideScenario := by
  have hstop : (Oscillator.tick^[4410] glideScenario).glideCounter ≤ 0 := by
    rw [(glideFreqAt_eq 4410 le_rfl).2]; norm_num
  induction j with
  | zero => rfl
  | succ j ih =>
      have hrw : 4410 + (j + 1) = (4410 + j) + 1 := rfl
      rw [hrw, Function.iterate_succ_apply', ih, Oscillator.tick_of_nonpos hstop]

lemma glideFreqAt_final : glideFreqAt 4410 = 880 := by
  rw [(glideFreqAt_eq 4410 le_rfl).1,
    ← Real.rpow_natCast ((2 : ℝ) ^ ((1 : ℝ) / 4410)) 4410,
    ← Real.rpow_mul (by norm_num)]
  norm_num

/-- Claim C4 (amended): in the 440 → 880 Hz, 100 ms, 44100 Hz scenario the
per-sample frequency is strictly increasing for the first
`ceil(0.1·44100) = 4410` samples, equals exactly 880 Hz after sample 4410 and
stays there; in general each tick of an active glide multiplies the frequency
by the constant step `(target/current)^(1/glideSamples)`, and a glide time
shorter than one sample period completes in a single sample, landing exactly
on the target.  (Exactness of the final frequency needs the glide length in
samples to be an integer, as it is in this scenario; see the
counterexample for a fractional length.) -/
theorem osc_glide_trajectory_amended :
    (∀ k, k < 4410 → glideFreqAt k < glideFreqAt (k + 1)) ∧
    glideFreqAt 4410 = 880 ∧
    (∀ m, 4410 ≤ m → glideFreqAt m = 880) ∧
    (∀ s : Oscillator, 0 < s.glideCounter →
      s.tick.frequency = s.frequency * s.glideStep) ∧
    (∀ (s : Oscillator) (f t : ℝ),
      (s.glideTo f t).glideStep =
        (f / s.frequency) ^ ((1 : ℝ) / (s.glideTo f t).glideSamples)) ∧
    (∀ (s : Oscillator) (f t : ℝ), 0 < s.frequency →
      t / 1000 * s.sampleRate < 1 →
      (s.glideTo f t).tick.frequency = f ∧ (s.glideTo f t).tick.glideCounter = 0) := by
  refine ⟨?_, glideFreqAt_final, ?_, ?_, ?_, ?_⟩
  · intro k hk
    have h1 := (glideFreqAt_eq k (le_of_lt hk)).1
    have h2 := (glideFreqAt_eq (k + 1) hk).1
    rw [h1, h2, pow_succ, ← mul_assoc]
    have hp : 0 < 440 * ((2 : ℝ) ^ ((1 : ℝ) / 4410)) ^ k :=
      mul_pos (by norm_num) (pow_pos glideScenario_step_pos k)
    exact lt_mul_of_one_lt_right hp glideScenario_step_gt_one
  · intro m hm
    obtain ⟨j, rfl⟩ := Nat.exists_eq_add_of_le hm
    rw [glideFreqAt_congr (glide_stall_add j)]
    exact glideFreqAt_final
  · intro s hs
    rw [Oscillator.tick_of_pos hs]
  · intro s f t
    simp only [Oscillator.glideTo]
  · intro s f t hf ht
    have hgs : (if t / 1000 * s.sampleRate < 1 then (1 : ℝ)
        else t / 1000 * s.sampleRate) = 1 := if_pos ht
    constructor
    · have hcpos : (s.glideTo f t).glideCounter = 1 := by
        simp only [Oscillator.glideTo, hgs]
        norm_num
      rw [Oscillator.tick_of_pos (by rw [hcpos]; norm_num)]
      simp only [Oscillator.glideTo, hgs]
      rw [div_one, Real.rpow_one, mul_comm, div_mul_cancel₀ f (ne_of_gt hf)]
    · have hcpos : (s.glideTo f t).glideCounter = 1 := by
        simp only [Oscillator.glideTo, hgs]
        norm_num
      rw [Oscillator.tick_of_pos (by rw [hcpos]; norm_num)]
      simp [hcpos]

/-- The C4 counterexample scenario: `glideTo(880, 100.5 ms)` from the default
oscillator.  The glide length is `4432.05` samples, so the counter runs for
4432 ticks while the step is `2^(1/4432.05)`. -/
noncomputable def glideScenarioB : Oscillator := Oscillator.init.glideTo 880 (201 / 2)

/-- Counterexample for C4 as stated: for a glide time that is not a whole
number of samples, after the step counter reaches zero the frequency is
strictly below the target, not exactly equal to it. -/
theorem osc_glide_fractional_not_exact :
    (Oscillator.tick^[4432] glideScenarioB).glideCounter = 0 ∧
      (Oscillator.tick^[4432] glideScenarioB).frequency < 880 := by
  have hfreq : glideScenarioB.frequency = 440 := by
    simp [glideScenarioB, Oscillator.glideTo, Oscillator.init]
  have hcount : glideScenarioB.glideCounter = 4432 := by
    simp only [glideScenarioB, Oscillator.glideTo, Oscillator.init]
    norm_num [Int.floor_eq_iff]
  have hstep : glideScenarioB.glideStep = (2 : ℝ) ^ ((20 : ℝ) / 88641) := by
    simp only [glideScenarioB, Oscillator.glideTo, Oscillator.init]
    norm_num
  have h := Oscillator.tick_iter glideScenarioB 4432 (by rw [hcount]; norm_num)
  rw [hfreq, hcount, hstep] at h
  refine ⟨by rw [h.2.1]; norm_num, ?_⟩
  rw [h.1, ← Real.rpow_natCast ((2 : ℝ) ^ ((20 : ℝ) / 88641)) 4432,
    ← Real.rpow_mul (by norm_num)]
  have hlt : (2 : ℝ) ^ ((20 : ℝ) / 88641 * (4432 : ℕ)) < 2 ^ (1 : ℝ) := by
    rw [Real.rpow_lt_rpow_left_iff (by norm_num)]
    norm_num
  have h2 : (2 : ℝ) ^ (1 : ℝ) = 2 := Real.rpow_one 2
  nlinarith [hlt, h2]

/-- Claim C3: for every sample rate > 0 and frequency > 0, the oscillator
state fields `phase` and `subPhase` lie in `[0, 1)` in every state reachable
through the public interface, in particular after any finite number of
`Oscillator::process` calls. -/
theorem osc_phase_subPhase_in_unit (s : Oscillator) (h : s.Reachable) :
    s.phase ∈ Set.Ico (0 : ℝ) 1 ∧ s.subPhase ∈ Set.Ico (0 : ℝ) 1 := by
  have hi := Oscillator.reachable_inv h
  exact ⟨⟨hi.phase_nonneg, hi.phase_lt_one⟩, ⟨hi.subPhase_nonneg, hi.subPhase_lt_one⟩⟩

/-- Witness for C3: the invariant holds concretely after two `process` calls
from the default-constructed oscillator. -/
theorem osc_phase_subPhase_in_unit_witness :
    (Oscillator.init.process.1.process.1.phase ∈ Set.Ico (0 : ℝ) 1) ∧
      (Oscillator.init.process.1.process.1.subPhase ∈ Set.Ico (0 : ℝ) 1) :=
  osc_phase_subPhase_in_unit _
    (Oscillator.Reachable.process (Oscillator.Reachable.process Oscillator.Reachable.init))

/-! ### DecayEnvelope (DecayEnvelope.h / DecayEnvelope.cpp) -/

/-- Modulation-envelope state: the private members of class `DecayEnvelope`
with the header's default member initializers. -/
structure DecayEnvelope where
  sampleRate : ℝ := 44100
  decayTime : ℝ := 200
  coeff : ℝ := 0.99
  y : ℝ := 0

/-- A default-constructed modulation envelope. -/
noncomputable def DecayEnvelope.init : DecayEnvelope := {}

/-- Method `DecayEnvelope::calculateCoeff`: floors the stored decay time to 0.1 ms,
then `coeff = exp(-1/(0.001·decayTime·sampleRate))`. -/
noncomputable def DecayEnvelope.calculateCoeff (s : DecayEnvelope) : DecayEnvelope :=
  let dt := if s.decayTime < 0.1 then (0.1 : ℝ) else s.decayTime
  { s with decayTime := dt,
           coeff := Real.exp (-1 / (0.001 * dt * s.sampleRate)) }

/-- Method `DecayEnvelope::setSampleRate`. -/
noncomputable def DecayEnvelope.setSampleRate (s : DecayEnvelope) (sr : ℝ) :
    DecayEnvelope :=
  DecayEnvelope.calculateCoeff { s with sampleRate := sr }

/-- Method `DecayEnvelope::setDecayTime`. -/
noncomputable def DecayEnvelope.setDecayTime (s : DecayEnvelope) (ms : ℝ) :
    DecayEnvelope :=
  DecayEnvelope.calculateCoeff { s with decayTime := ms }

/-- Method `DecayEnvelope::trigger`: sets the level to 1.0 unconditionally. -/
def DecayEnvelope.trigger (s : DecayEnvelope) : DecayEnvelope :=
  { s with y := 1 }

/-- Method `DecayEnvelope::process`: multiplies the level by the decay coefficient
and returns the new level. -/
noncomputable def DecayEnvelope.process (s : DecayEnvelope) : DecayEnvelope × ℝ :=
  ({ s with y := s.y * s.coeff }, s.y * s.coeff)

/-- Method `DecayEnvelope::getCurrentValue`. -/
def DecayEnvelope.getCurrentValue (s : DecayEnvelope) : ℝ := s.y

/-- Runs `n` consecutive `DecayEnvelope::process` calls. -/
noncomputable def DecayEnvelope.run (s : DecayEnvelope) (n : ℕ) : DecayEnvelope :=
  (fun t => t.process.1)^[n] s

/-! ### AnalogEnvelope (AnalogEnvelope.h / AnalogEnvelope.cpp) -/

inductive EnvStage
  | IDLE
  | ATTACK
  | DECAY
  | RELEASE
deriving DecidableEq

/-- Amplitude-envelope state: the private members of class `AnalogEnvelope`
with the header's default member initializers. -/
structure AnalogEnvelope where
  state : EnvStage := .IDLE
  isNoteOn : Bool := false
  sampleRate : ℝ := 44100
  decayTime : ℝ := 1000
  releaseTime : ℝ := 10
  attackTime : ℝ := 3
  decayCoeff : ℝ := 0.99
  releaseCoeff : ℝ := 0.9
  attackCoeff : ℝ := 0.1
  currentLevel : ℝ := 0

/-- A default-constructed amplitude envelope. -/
noncomputable def AnalogEnvelope.init : AnalogEnvelope := {}

/-- Method `AnalogEnvelope::calculateCoeffs`: exponential decay and release
coefficients `exp(-1/(0.001·time·sampleRate))` computed from the stored
times as they are (no flooring); only the linear attack sample count is
floored to 1 before taking its reciprocal. -/
noncomputable def AnalogEnvelope.calculateCoeffs (s : AnalogEnvelope) : AnalogEnvelope :=
  let attackSamples0 := 0.001 * s.attackTime * s.sampleRate
  let attackSamples := if attackSamples0 < 1 then (1 : ℝ) else attackSamples0
  { s with decayCoeff := Real.exp (-1 / (0.001 * s.decayTime * s.sampleRate)),
           releaseCoeff := Real.exp (-1 / (0.001 * s.releaseTime * s.sampleRate)),
           attackCoeff := 1 / attackSamples }

/-- Method `AnalogEnvelope::setSampleRate`. -/
noncomputable def AnalogEnvelope.setSampleRate (s : AnalogEnvelope) (sr : ℝ) :
    AnalogEnvelope :=
  AnalogEnvelope.calculateCoeffs { s with sampleRate := sr }

/-- Method `AnalogEnvelope::setDecay`. -/
noncomputable def AnalogEnvelope.setDecay (s : AnalogEnvelope) (ms : ℝ) :
    AnalogEnvelope :=
  AnalogEnvelope.calculateCoeffs { s with decayTime := ms }

/-- Method `AnalogEnvelope::setRelease`. -/
noncomputable def AnalogEnvelope.setRelease (s : AnalogEnvelope) (ms : ℝ) :
    AnalogEnvelope :=
  AnalogEnvelope.calculateCoeffs { s with releaseTime := ms }

/-- Method `AnalogEnvelope::setAttack`. -/
noncomputable def AnalogEnvelope.setAttack (s : AnalogEnvelope) (ms : ℝ) :
    AnalogEnvelope :=
  AnalogEnvelope.calculateCoeffs { s with attackTime := ms }

/-- Method `AnalogEnvelope::noteOn`: resets the level to 0 and enters Attack. -/
def AnalogEnvelope.noteOn (s : AnalogEnvelope) : AnalogEnvelope :=
  { s with isNoteOn := true, state := .ATTACK, currentLevel := 0 }

/-- Method `AnalogEnvelope::noteOff`: enters Release regardless of the current
stage. -/
def AnalogEnvelope.noteOff (s : AnalogEnvelope) : AnalogEnvelope :=
  { s with isNoteOn := false, state := .RELEASE }

/-- Method `AnalogEnvelope::process`: one sample of the envelope state machine;
returns the updated state and the level `process` returns. -/
noncomputable def AnalogEnvelope.process (s : AnalogEnvelope) : AnalogEnvelope × ℝ :=
  match s.state with
  | .ATTACK =>
      let l := s.currentLevel + s.attackCoeff
      if 1 ≤ l then ({ s with currentLevel := 1, state := .DECAY }, 1)
      else ({ s with currentLevel := l }, l)
  | .DECAY =>
      let l := s.currentLevel * s.decayCoeff
      if l < 0.0001 then ({ s with currentLevel := 0, state := .IDLE }, 0)
      else ({ s with currentLevel := l }, l)
  | .RELEASE =>
      let l := s.currentLevel * s.releaseCoeff
      if l < 0.0001 then ({ s with currentLevel := 0, state := .IDLE }, 0)
      else ({ s with currentLevel := l }, l)
  | .IDLE => (s, s.currentLevel)

/-- Method `AnalogEnvelope::isActive`. -/
def AnalogEnvelope.isActive (s : AnalogEnvelope) : Bool := s.isNoteOn

/-- Runs `n` consecutive `AnalogEnvelope::process` calls. -/
noncomputable def AnalogEnvelope.run (s : AnalogEnvelope) (n : ℕ) : AnalogEnvelope :=
  (fun t => t.process.1)^[n] s

/-! #### Modulation-envelope facts (C5) -/

lemma DecayEnvelope.run_step (s : DecayEnvelope) (n : ℕ) :
    s.run (n + 1) = (s.run n).process.1 := by
  unfold DecayEnvelope.run
  rw [Function.iterate_succ_apply']

lemma DecayEnvelope.run_y (s : DecayEnvelope) :
    ∀ n, (s.run n).y = s.coeff ^ n * s.y ∧ (s.run n).coeff = s.coeff := by
  intro n
  induction n with
  | zero => simp [DecayEnvelope.run]
  | succ n ih =>
      rw [DecayEnvelope.run_step]
      constructor
      · show (s.run n).y * (s.run n).coeff = s.coeff ^ (n + 1) * s.y
        rw [ih.1, ih.2, pow_succ]; ring
      · exact ih.2

/-- Every configuration with a positive sample rate yields a modulation-decay
coefficient strictly between 0 and 1 (the stored decay time is floored to
0.1 ms by `calculateCoeff`, so the divisor is positive). -/
lemma DecayEnvelope.coeff_mem_Ioo (s : DecayEnvelope) (sr ms : ℝ) (hsr : 0 < sr) :
    0 < ((s.setSampleRate sr).setDecayTime ms).coeff ∧
      ((s.setSampleRate sr).setDecayTime ms).coeff < 1 := by
  have hsr' : ((DecayEnvelope.calculateCoeff { s with sampleRate := sr }).sampleRate) = sr := rfl
  simp only [DecayEnvelope.setSampleRate, DecayEnvelope.setDecayTime,
    DecayEnvelope.calculateCoeff]
  set dt := if ms < 0.1 then (0.1 : ℝ) else ms with hdt
  have hdtpos : 0 < dt := by
    rw [hdt]; split
    · norm_num
    · linarith [not_lt.mp (by assumption : ¬ ms < 0.1)]
  have hdenpos : 0 < 0.001 * dt * sr := by positivity
  have harg : -1 / (0.001 * dt * sr) < 0 := by
    apply div_neg_of_neg_of_pos <;> [norm_num; exact hdenpos]
  exact ⟨Real.exp_pos _, by simpa using Real.exp_lt_exp.mpr harg⟩

/-- Claim C5: `DecayEnvelope::trigger` sets the level to exactly 1.0 from any
state; for any configuration with coefficient in `(0, 1)` (as produced by the
setters for every positive sample rate, see `DecayEnvelope.coeff_mem_Ioo`),
the levels returned by successive `process` calls after a trigger form the
strictly decreasing, positive geometric sequence `coeff^n` converging to 0;
and from any nonnegative level, one `process` call never increases the
level. -/
theorem decay_env_trigger_monotone (s : DecayEnvelope)
    (hc0 : 0 < s.coeff) (hc1 : s.coeff < 1) :
    (∀ t : DecayEnvelope, t.trigger.y = 1) ∧
    (∀ n, (s.trigger.run n).y = s.coeff ^ n) ∧
    (∀ n, 0 < (s.trigger.run n).y) ∧
    (∀ n, (s.trigger.run (n + 1)).y < (s.trigger.run n).y) ∧
    Filter.Tendsto (fun n => (s.trigger.run n).y) Filter.atTop (nhds 0) ∧
    (∀ t : DecayEnvelope, 0 ≤ t.y → 0 ≤ t.coeff → t.coeff ≤ 1 →
      t.process.1.y ≤ t.y) := by
  have hy : ∀ n, (s.trigger.run n).y = s.coeff ^ n := by
    intro n
    rw [(DecayEnvelope.run_y s.trigger n).1]
    show s.coeff ^ n * 1 = s.coeff ^ n
    rw [mul_one]
  refine ⟨fun t => rfl, hy, ?_, ?_, ?_, ?_⟩
  · intro n; rw [hy n]; exact pow_pos hc0 n
  · intro n
    rw [hy n, hy (n + 1)]
    exact pow_lt_pow_right_of_lt_one₀ hc0 hc1 (Nat.lt_succ_self n)
  · exact (tendsto_pow_atTop_nhds_zero_of_lt_one hc0.le hc1).congr
      (fun n => (hy n).symm)
  · intro t hty htc0 htc1
    show t.y * t.coeff ≤ t.y
    nlinarith

/-- Witness for C5 at a concrete configuration: default envelope, sample rate
44100 Hz, decay time 200 ms. -/
theorem decay_env_trigger_monotone_witness :
    (0 < ((DecayEnvelope.init.setSampleRate 44100).setDecayTime 200).coeff ∧
      ((DecayEnvelope.init.setSampleRate 44100).setDecayTime 200).coeff < 1) ∧
    ((∀ t : DecayEnvelope, t.trigger.y = 1) ∧
     (∀ n, (((DecayEnvelope.init.setSampleRate 44100).setDecayTime 200).trigger.run n).y =
        ((DecayEnvelope.init.setSampleRate 44100).setDecayTime 200).coeff ^ n) ∧
     (∀ n, 0 < (((DecayEnvelope.init.setSampleRate 44100).setDecayTime 200).trigger.run n).y) ∧
     (∀ n, (((DecayEnvelope.init.setSampleRate 44100).setDecayTime 200).trigger.run (n + 1)).y <
        (((DecayEnvelope.init.setSampleRate 44100).setDecayTime 200).trigger.run n).y) ∧
     Filter.Tendsto
       (fun n => (((DecayEnvelope.init.setSampleRate 44100).setDecayTime 200).trigger.run n).y)
       Filter.atTop (nhds 0) ∧
     (∀ t : DecayEnvelope, 0 ≤ t.y → 0 ≤ t.coeff → t.coeff ≤ 1 →
       t.process.1.y ≤ t.y)) :=
  ⟨DecayEnvelope.coeff_mem_Ioo DecayEnvelope.init 44100 200 (by norm_num),
   decay_env_trigger_monotone _
     (DecayEnvelope.coeff_mem_Ioo DecayEnvelope.init 44100 200 (by norm_num)).1
     (DecayEnvelope.coeff_mem_Ioo DecayEnvelope.init 44100 200 (by norm_num)).2⟩

/-! #### Amplitude-envelope facts (C6, C7) -/

lemma AnalogEnvelope.run_succ (s : AnalogEnvelope) (n : ℕ) :
    s.run (n + 1) = (s.run n).process.1 := by
  unfold AnalogEnvelope.run
  rw [Function.iterate_succ_apply']

lemma AnalogEnvelope.process_attack (s : AnalogEnvelope) (h : s.state = .ATTACK) :
    s.process =
      (if 1 ≤ s.currentLevel + s.attackCoeff
        then ({ s with currentLevel := 1, state := .DECAY }, 1)
        else ({ s with currentLevel := s.currentLevel + s.attackCoeff },
              s.currentLevel + s.attackCoeff)) := by
  obtain ⟨st, b, sr, dt, rt, att, dc, rc, ac, lvl⟩ := s
  cases h
  rfl

lemma AnalogEnvelope.process_release (s : AnalogEnvelope) (h : s.state = .RELEASE) :
    s.process =
      (if s.currentLevel * s.releaseCoeff < 0.0001
        then ({ s with currentLevel := 0, state := .IDLE }, 0)
        else ({ s with currentLevel := s.currentLevel * s.releaseCoeff },
              s.currentLevel * s.releaseCoeff)) := by
  obtain ⟨st, b, sr, dt, rt, att, dc, rc, ac, lvl⟩ := s
  cases h
  rfl

lemma AnalogEnvelope.process_idle (s : AnalogEnvelope) (h : s.state = .IDLE) :
    s.process = (s, s.currentLevel) := by
  obtain ⟨st, b, sr, dt, rt, att, dc, rc, ac, lvl⟩ := s
  cases h
  rfl

/-- The C6 scenario: a default amplitude envelope configured with a 3 ms
attack (at the default 44100 Hz sample rate), then `noteOn`. -/
noncomputable def attackScenario : AnalogEnvelope :=
  (AnalogEnvelope.init.setAttack 3).noteOn

lemma attackScenario_attackCoeff : attackScenario.attackCoeff = 10 / 1323 := by
  simp only [attackScenario, AnalogEnvelope.noteOn, AnalogEnvelope.setAttack,
    AnalogEnvelope.calculateCoeffs, AnalogEnvelope.init]
  norm_num

lemma attackScenario_state : attackScenario.state = .ATTACK := rfl

lemma attackScenario_level : attackScenario.currentLevel = 0 := rfl

lemma attackScenario_run (k : ℕ) (hk : k ≤ 132) :
    (AnalogEnvelope.run attackScenario k).currentLevel = k * (10 / 1323) ∧
      (AnalogEnvelope.run attackScenario k).state = .ATTACK ∧
      (AnalogEnvelope.run attackScenario k).attackCoeff = 10 / 1323 := by
  induction k with
  | zero =>
      refine ⟨?_, attackScenario_state, attackScenario_attackCoeff⟩
      have h0 : (AnalogEnvelope.run attackScenario 0).currentLevel =
          attackScenario.currentLevel := rfl
      rw [h0, attackScenario_level]
      push_cast
      ring
  | succ k ih =>
      obtain ⟨hl, hs, hc⟩ := ih (by omega)
      rw [AnalogEnvelope.run_succ,
        AnalogEnvelope.process_attack _ hs, hl, hc]
      have hnotone : ¬ (1 : ℝ) ≤ k * (10 / 1323) + 10 / 1323 := by
        have hk' : (k : ℝ) ≤ 131 := by exact_mod_cast Nat.lt_succ_iff.mp (by omega)
        nlinarith
      rw [if_neg hnotone]
      refine ⟨?_, hs, rfl⟩
      push_cast
      ring

/-- Claim C6: with a 3 ms attack at 44100 Hz, `noteOn` resets the level to 0
and enters Attack; each `process` call adds the constant increment
`1/max(1, 0.001·3·44100) = 10/1323` while in Attack; the level first reaches
1.0 at sample `133 = ceil(0.003·44100)`, where it is clamped to exactly 1.0
and the stage becomes Decay. -/
theorem analog_env_attack_scenario :
    attackScenario.currentLevel = 0 ∧
    attackScenario.state = .ATTACK ∧
    attackScenario.attackCoeff = 10 / 1323 ∧
    (∀ k, k ≤ 132 →
      (AnalogEnvelope.run attackScenario k).currentLevel = k * (10 / 1323) ∧
      (AnalogEnvelope.run attackScenario k).state = .ATTACK) ∧
    (∀ k, k < 132 →
      (AnalogEnvelope.run attackScenario (k + 1)).currentLevel -
        (AnalogEnvelope.run attackScenario k).currentLevel = 10 / 1323) ∧
    (AnalogEnvelope.run attackScenario 133).currentLevel = 1 ∧
    (AnalogEnvelope.run attackScenario 133).state = .DECAY := by
  have h132 := attackScenario_run 132 le_rfl
  have hfinal : (AnalogEnvelope.run attackScenario 133).currentLevel = 1 ∧
      (AnalogEnvelope.run attackScenario 133).state = .DECAY := by
    have h133 : (133 : ℕ) = 132 + 1 := rfl
    rw [h133, AnalogEnvelope.run_succ, AnalogEnvelope.process_attack _ h132.2.1,
      h132.1, h132.2.2]
    rw [if_pos (by norm_num)]
    exact ⟨rfl, rfl⟩
  refine ⟨attackScenario_level, attackScenario_state, attackScenario_attackCoeff,
    fun k hk => ⟨(attackScenario_run k hk).1, (attackScenario_run k hk).2.1⟩,
    ?_, hfinal⟩
  intro k hk
  rw [(attackScenario_run k (by omega)).1, (attackScenario_run (k + 1) (by omega)).1]
  push_cast
  ring

lemma AnalogEnvelope.run_zero (s : AnalogEnvelope) : s.run 0 = s := rfl

lemma AnalogEnvelope.run_add (s : AnalogEnvelope) (a b : ℕ) :
    s.run (a + b) = (s.run a).run b := by
  unfold AnalogEnvelope.run
  rw [add_comm, Function.iterate_add_apply]

lemma AnalogEnvelope.run_of_idle (t : AnalogEnvelope) (h : t.state = .IDLE) :
    ∀ m, t.run m = t := by
  intro m
  induction m with
  | zero => rfl
  | succ m ih => rw [AnalogEnvelope.run_succ, ih, AnalogEnvelope.process_idle _ h]

/-- While the stage stays Release the level is the geometric sequence
`releaseCoeff^n · level₀`; once the floor snaps it, the stage is Idle with
level exactly 0.  The release coefficient itself is never modified. -/
lemma AnalogEnvelope.release_inv (s : AnalogEnvelope) (hs : s.state = .RELEASE) :
    ∀ n, ((s.run n).state = .RELEASE ∧
            (s.run n).currentLevel = s.releaseCoeff ^ n * s.currentLevel ∧
            (s.run n).releaseCoeff = s.releaseCoeff) ∨
         ((s.run n).state = .IDLE ∧ (s.run n).currentLevel = 0 ∧
            (s.run n).releaseCoeff = s.releaseCoeff) := by
  intro n
  induction n with
  | zero =>
      left
      refine ⟨hs, ?_, rfl⟩
      rw [pow_zero, one_mul]
      rfl
  | succ n ih =>
      rcases ih with ⟨h1, h2, h3⟩ | ⟨h1, h2, h3⟩
      · rw [AnalogEnvelope.run_succ, AnalogEnvelope.process_release _ h1, h2, h3]
        by_cases hsnap :
            s.releaseCoeff ^ n * s.currentLevel * s.releaseCoeff < 0.0001
        · rw [if_pos hsnap]
          exact Or.inr ⟨rfl, rfl, rfl⟩
        · rw [if_neg hsnap]
          refine Or.inl ⟨h1, ?_, rfl⟩
          show s.releaseCoeff ^ n * s.currentLevel * s.releaseCoeff =
            s.releaseCoeff ^ (n + 1) * s.currentLevel
          rw [pow_succ]; ring
      · rw [AnalogEnvelope.run_succ, AnalogEnvelope.process_idle _ h1]
        exact Or.inr ⟨h1, h2, h3⟩

/-- Claim C7: `noteOff` moves the envelope to Release from any stage; from a
nonnegative level and a release coefficient computed by `calculateCoeffs`
from a positive release time and sample rate, the level after `noteOff` is
non-increasing and nonnegative over successive `process` calls, the stage is
always Release or Idle (with level exactly 0 once Idle), a release step whose
decayed level falls below the 1e-4 floor snaps to exactly 0 and Idle, and
from some sample on the envelope is Idle at level 0 and never rises again
before another `noteOn`. -/
theorem analog_env_noteOff_release (s : AnalogEnvelope)
    (hL : 0 ≤ s.currentLevel)
    (hrt : 0 < s.releaseTime) (hsr : 0 < s.sampleRate)
    (hcoeff : s.releaseCoeff =
      Real.exp (-1 / (0.001 * s.releaseTime * s.sampleRate))) :
    (∀ t : AnalogEnvelope, t.noteOff.state = .RELEASE) ∧
    (∀ n, (s.noteOff.run (n + 1)).currentLevel ≤ (s.noteOff.run n).currentLevel) ∧
    (∀ n, 0 ≤ (s.noteOff.run n).currentLevel) ∧
    (∀ n, (s.noteOff.run n).state = .RELEASE ∨
      ((s.noteOff.run n).state = .IDLE ∧ (s.noteOff.run n).currentLevel = 0)) ∧
    (∀ n, (s.noteOff.run n).state = .RELEASE →
      (s.noteOff.run n).currentLevel * s.releaseCoeff < 0.0001 →
      (s.noteOff.run (n + 1)).state = .IDLE ∧
        (s.noteOff.run (n + 1)).currentLevel = 0) ∧
    (∃ N, ∀ n, N ≤ n →
      (s.noteOff.run n).state = .IDLE ∧ (s.noteOff.run n).currentLevel = 0) := by
  have hc0 : 0 < s.releaseCoeff := hcoeff ▸ Real.exp_pos _
  have hc1 : s.releaseCoeff < 1 := by
    rw [hcoeff]
    have hdenpos : 0 < 0.001 * s.releaseTime * s.sampleRate := by positivity
    have harg : -1 / (0.001 * s.releaseTime * s.sampleRate) < 0 :=
      div_neg_of_neg_of_pos (by norm_num) hdenpos
    simpa using Real.exp_lt_exp.mpr harg
  have hsoff : s.noteOff.state = .RELEASE := rfl
  have hlvl : s.noteOff.currentLevel = s.currentLevel := rfl
  have hcf : s.noteOff.releaseCoeff = s.releaseCoeff := rfl
  have inv := AnalogEnvelope.release_inv s.noteOff hsoff
  simp only [hlvl, hcf] at inv
  have hnonneg : ∀ n, 0 ≤ (s.noteOff.run n).currentLevel := by
    intro n
    rcases inv n with ⟨_, h2, _⟩ | ⟨_, h2, _⟩
    · rw [h2]; positivity
    · rw [h2]
  refine ⟨fun t => rfl, ?_, hnonneg, ?_, ?_, ?_⟩
  · intro n
    rcases inv n with ⟨h1, h2, h3⟩ | ⟨h1, _, _⟩
    · rw [AnalogEnvelope.run_succ, AnalogEnvelope.process_release _ h1, h2, h3]
      have hpow : 0 ≤ s.releaseCoeff ^ n := pow_nonneg hc0.le n
      by_cases hsnap :
          s.releaseCoeff ^ n * s.currentLevel * s.releaseCoeff < 0.0001
      · rw [if_pos hsnap]
        show (0 : ℝ) ≤ s.releaseCoeff ^ n * s.currentLevel
        positivity
      · rw [if_neg hsnap]
        show s.releaseCoeff ^ n * s.currentLevel * s.releaseCoeff ≤
          s.releaseCoeff ^ n * s.currentLevel
        nlinarith
    · have heq : s.noteOff.run (n + 1) = s.noteOff.run n := by
        rw [AnalogEnvelope.run_add s.noteOff n 1,
          AnalogEnvelope.run_of_idle (s.noteOff.run n) h1 1]
      rw [heq]
  · intro n
    rcases inv n with ⟨h1, _, _⟩ | ⟨h1, h2, _⟩
    · exact Or.inl h1
    · exact Or.inr ⟨h1, h2⟩
  · intro n h1 hlt
    rcases inv n with ⟨_, _, h3⟩ | ⟨g1, _, _⟩
    · rw [AnalogEnvelope.run_succ, AnalogEnvelope.process_release _ h1, h3]
      rw [if_pos hlt]
      exact ⟨rfl, rfl⟩
    · rw [h1] at g1; exact absurd g1 (by simp)
  · obtain ⟨n0, hn0⟩ :=
      exists_pow_lt_of_lt_one
        (show (0 : ℝ) < 0.0001 / (s.currentLevel + 1) by positivity) hc1
    have hsnap : s.releaseCoeff ^ n0 * s.currentLevel * s.releaseCoeff < 0.0001 := by
      have h1 : s.releaseCoeff ^ n0 * (s.currentLevel + 1) < 0.0001 := by
        have := mul_lt_mul_of_pos_right hn0
          (show (0 : ℝ) < s.currentLevel + 1 by linarith)
        rwa [div_mul_cancel₀ _ (show s.currentLevel + 1 ≠ 0 by linarith)] at this
      have hpow : 0 ≤ s.releaseCoeff ^ n0 := pow_nonneg hc0.le n0
      nlinarith
    have hidle : (s.noteOff.run (n0 + 1)).state = .IDLE ∧
        (s.noteOff.run (n0 + 1)).currentLevel = 0 := by
      rcases inv n0 with ⟨h1, h2, h3⟩ | ⟨h1, h2, h3⟩
      · rw [AnalogEnvelope.run_succ, AnalogEnvelope.process_release _ h1, h2, h3]
        rw [if_pos hsnap]
        exact ⟨rfl, rfl⟩
      · have hstay := AnalogEnvelope.run_of_idle (s.noteOff.run n0) h1 1
        have heq : s.noteOff.run (n0 + 1) = s.noteOff.run n0 := by
          rw [AnalogEnvelope.run_add s.noteOff n0 1, hstay]
        rw [heq]
        exact ⟨h1, h2⟩
    refine ⟨n0 + 1, fun n hn => ?_⟩
    obtain ⟨j, rfl⟩ := Nat.exists_eq_add_of_le hn
    rw [AnalogEnvelope.run_add, AnalogEnvelope.run_of_idle _ hidle.1 j]
    exact hidle

/-- The C7 witness configuration: a default amplitude envelope after
`setRelease(10)`. -/
noncomputable def releaseConfig : AnalogEnvelope := AnalogEnvelope.init.setRelease 10

/-- Witness for C7 at the concrete configuration `releaseConfig` (level 0,
release time 10 ms, sample rate 44100 Hz). -/
theorem analog_env_noteOff_release_witness :
    (∀ t : AnalogEnvelope, t.noteOff.state = .RELEASE) ∧
    (∀ n, (releaseConfig.noteOff.run (n + 1)).currentLevel ≤
      (releaseConfig.noteOff.run n).currentLevel) ∧
    (∀ n, 0 ≤ (releaseConfig.noteOff.run n).currentLevel) ∧
    (∀ n, (releaseConfig.noteOff.run n).state = .RELEASE ∨
      ((releaseConfig.noteOff.run n).state = .IDLE ∧
        (releaseConfig.noteOff.run n).currentLevel = 0)) ∧
    (∀ n, (releaseConfig.noteOff.run n).state = .RELEASE →
      (releaseConfig.noteOff.run n).currentLevel * releaseConfig.releaseCoeff < 0.0001 →
      (releaseConfig.noteOff.run (n + 1)).state = .IDLE ∧
        (releaseConfig.noteOff.run (n + 1)).currentLevel = 0) ∧
    (∃ N, ∀ n, N ≤ n →
      (releaseConfig.noteOff.run n).state = .IDLE ∧
        (releaseConfig.noteOff.run n).currentLevel = 0) :=
  analog_env_noteOff_release releaseConfig
    (le_of_eq rfl)
    (by norm_num [releaseConfig, AnalogEnvelope.setRelease,
      AnalogEnvelope.calculateCoeffs, AnalogEnvelope.init])
    (by norm_num [releaseConfig, AnalogEnvelope.setRelease,
      AnalogEnvelope.calculateCoeffs, AnalogEnvelope.init])
    (by norm_num [releaseConfig, AnalogEnvelope.setRelease,
      AnalogEnvelope.calculateCoeffs, AnalogEnvelope.init])

/-! #### Time-constant flooring (C2) -/

/-- Counterexample for C2 as stated: `AnalogEnvelope::setDecay(0)` stores the
decay time 0 without flooring it, so the divisor
`0.001 · decayTime · sampleRate` of the decay-coefficient formula is exactly
0 — the coefficient computation divides by zero. -/
theorem analog_decay_time_not_floored :
    (AnalogEnvelope.init.setDecay 0).decayTime = 0 ∧
      0.001 * (AnalogEnvelope.init.setDecay 0).decayTime *
        (AnalogEnvelope.init.setDecay 0).sampleRate = 0 ∧
      ¬ 0 < (AnalogEnvelope.init.setDecay 0).decayTime := by
  refine ⟨rfl, ?_, ?_⟩ <;>
    norm_num [AnalogEnvelope.setDecay, AnalogEnvelope.calculateCoeffs,
      AnalogEnvelope.init]

/-- Claim C2 (amended): the modulation envelope floors its decay time to
0.1 ms and the oscillator floors the glide length to one sample, so those
coefficient formulas never see a non-positive time constant; the amplitude
envelope however floors only its attack *sample count* (to 1, making the
attack increment exactly 1 for non-positive attack times), while its decay
and release times are stored and used unfloored, so a non-positive decay or
release time reaches the coefficient divisor unchanged (see the
counterexample). -/
theorem time_constant_flooring_amended :
    (∀ (s : DecayEnvelope) (ms : ℝ), 0.1 ≤ (s.setDecayTime ms).decayTime) ∧
    (∀ (s : DecayEnvelope) (sr : ℝ), 0.1 ≤ (s.setSampleRate sr).decayTime ∨
      (s.setSampleRate sr).decayTime = s.decayTime) ∧
    (∀ (s : Oscillator) (f t : ℝ), 1 ≤ (s.glideTo f t).glideSamples) ∧
    (∀ (s : AnalogEnvelope) (ms : ℝ), ms * s.sampleRate ≤ 0 →
      (s.setAttack ms).attackCoeff = 1) ∧
    (∀ (s : AnalogEnvelope) (ms : ℝ),
      (s.setDecay ms).decayTime = ms ∧ (s.setRelease ms).releaseTime = ms) := by
  refine ⟨?_, ?_, ?_, ?_, ?_⟩
  · intro s ms
    show 0.1 ≤ (if ms < 0.1 then (0.1 : ℝ) else ms)
    split
    · exact le_rfl
    · exact not_lt.mp (by assumption)
  · intro s sr
    show 0.1 ≤ (if s.decayTime < 0.1 then (0.1 : ℝ) else s.decayTime) ∨
      (if s.decayTime < 0.1 then (0.1 : ℝ) else s.decayTime) = s.decayTime
    split
    · exact Or.inl le_rfl
    · exact Or.inr rfl
  · intro s f t
    show 1 ≤ (if t / 1000 * s.sampleRate < 1 then (1 : ℝ) else t / 1000 * s.sampleRate)
    split
    · exact le_rfl
    · exact not_lt.mp (by assumption)
  · intro s ms h
    have hsmall : 0.001 * ms * s.sampleRate < 1 := by nlinarith
    show (1 : ℝ) / (if 0.001 * ms * s.sampleRate < 1 then (1 : ℝ)
      else 0.001 * ms * s.sampleRate) = 1
    rw [if_pos hsmall]
    norm_num
  · exact fun s ms => ⟨rfl, rfl⟩

/-! ### Filter303 (Filter303.h / Filter303.cpp) -/

/-- Ladder-filter state: the private members of class `Filter303`.  The
members `jc_b0/jc_k/jc_g` are declared in the header but never written (the
coefficients are recomputed locally every `process` call). -/
structure Filter303 where
  sampleRate : ℝ
  cutoff : ℝ
  resonance : ℝ
  envMod : ℝ
  accentMod : ℝ := 0
  fmAmount : ℝ := 0
  y1 : ℝ
  y2 : ℝ
  y3 : ℝ
  y4 : ℝ
  jc_b0 : ℝ := 0
  jc_k : ℝ := 0
  jc_g : ℝ := 0
  hp_state : ℝ := 0
  hp_cutoff : ℝ := 150
  hp_coeff : ℝ := 0

/-- The `Filter303(float sr)` constructor: initializes the listed members;
`hp_coeff` keeps its in-class initializer 0 because the constructor does not
call `updateCoefficients`. -/
def Filter303.create (sr : ℝ) : Filter303 :=
  { sampleRate := sr, cutoff := 1000, resonance := 0, envMod := 0,
    y1 := 0, y2 := 0, y3 := 0, y4 := 0 }

/-- Method `Filter303::updateCoefficients`: the fixed-150 Hz feedback-highpass
coefficient `exp(-2π·hp_cutoff/sampleRate)`. -/
noncomputable def Filter303.updateCoefficients (s : Filter303) : Filter303 :=
  { s with hp_coeff := Real.exp (-(2 * Real.pi * s.hp_cutoff) / s.sampleRate) }

/-- Method `Filter303::setCutoff`. -/
noncomputable def Filter303.setCutoff (s : Filter303) (freq : ℝ) : Filter303 :=
  Filter303.updateCoefficients { s with cutoff := freq }

/-- Method `Filter303::setResonance`: clamps to be nonnegative, values above 1
allowed. -/
noncomputable def Filter303.setResonance (s : Filter303) (res : ℝ) : Filter303 :=
  { s with resonance := max 0 res }

/-- Method `Filter303::setEnvMod`. -/
def Filter303.setEnvMod (s : Filter303) (amount : ℝ) : Filter303 :=
  { s with envMod := amount }

/-- Method `Filter303::setFMAmount`. -/
def Filter303.setFMAmount (s : Filter303) (amount : ℝ) : Filter303 :=
  { s with fmAmount := amount }

/-- Method `Filter303::getCutoff`. -/
def Filter303.getCutoff (s : Filter303) : ℝ := s.cutoff

/-- Method `Filter303::getEnvMod`. -/
def Filter303.getEnvMod (s : Filter303) : ℝ := s.envMod

/-- Method `Filter303::processFeedbackHPF`: one-pole highpass
`y = x - lpf(x)` on the feedback path. -/
noncomputable def Filter303.processFeedbackHPF (s : Filter303) (input : ℝ) :
    Filter303 × ℝ :=
  let st := s.hp_state + (1 - s.hp_coeff) * (input - s.hp_state)
  ({ s with hp_state := st }, input - st)

/-- The envelope-modulation offset computed at the top of
`Filter303::process`: `fmin(fmax(envMod·env, -0.95·cutoff), 4·cutoff)`, plus
the FM term `fmAmount·fmInput·0.5·cutoff` when `fmAmount > 0.001`. -/
noncomputable def Filter303.modAmt (s : Filter303) (env fmInput : ℝ) : ℝ :=
  let m0 := min (max (s.envMod * env) (-0.95 * s.cutoff)) (4 * s.cutoff)
  if 0.001 < s.fmAmount then m0 + s.fmAmount * fmInput * 0.5 * s.cutoff else m0

/-- The modulated cutoff of `Filter303::process`:
`fmin(fmax(cutoff + modAmt, 5), 0.45·sampleRate)`. -/
noncomputable def Filter303.modCutoff (s : Filter303) (env fmInput : ℝ) : ℝ :=
  min (max (s.cutoff + s.modAmt env fmInput) 5) (0.45 * s.sampleRate)

/-- Method `Filter303::process`: recomputes the Open303-style coefficients from the
modulated cutoff, applies the resonance skew, subtracts the highpassed
feedback and updates the four ladder stages sequentially.  Returns the
updated state and `2·g·y4`. -/
noncomputable def Filter303.process (s : Filter303)
    (input env accentEnv fmInput : ℝ) : Filter303 × ℝ :=
  let mc := s.modCutoff env fmInput
  let wc := 2 * Real.pi * mc / s.sampleRate
  let fx := wc * 0.70710678 / (2 * Real.pi)
  let b0 := (0.00045522346 + 6.1922189 * fx) /
    (1 + 12.358354 * fx + 4.4156345 * (fx * fx))
  let k := fx * (fx * (fx * (fx * (fx * (fx + 7198.6997) - 5837.7917)
    - 476.47308) + 614.95611) + 213.87126) + 16.998792
  let g0 := k * 0.058823529411764705882352941176471
  let r_skew := (1 - Real.exp (-3 * s.resonance)) / 0.9502129316
  let g1 := (g0 - 1) * r_skew + 1
  let g := g1 * (1 + r_skew)
  let k2 := k * r_skew
  let fb := s.processFeedbackHPF (k2 * s.y4)
  let s1 := fb.1
  let y0 := input - fb.2
  let ny1 := s1.y1 + 2 * b0 * (y0 - s1.y1 + s1.y2)
  let ny2 := s1.y2 + b0 * (ny1 - 2 * s1.y2 + s1.y3)
  let ny3 := s1.y3 + b0 * (ny2 - 2 * s1.y3 + s1.y4)
  let ny4 := s1.y4 + b0 * (ny3 - 2 * s1.y4)
  ({ s1 with y1 := ny1, y2 := ny2, y3 := ny3, y4 := ny4 }, 2 * g * ny4)

/-- Runs `n` consecutive `Filter303::process` calls fed by the input stream
`ins` of `(input, env, accentEnv, fmInput)` quadruples. -/
noncomputable def Filter303.runProcess (ins : ℕ → ℝ × ℝ × ℝ × ℝ) :
    ℕ → Filter303 → Filter303
  | 0, s => s
  | n + 1, s => Filter303.runProcess ins n
      (s.process (ins n).1 (ins n).2.1 (ins n).2.2.1 (ins n).2.2.2).1

/-! #### Modulated-cutoff clamp (C8) -/

/-- Claim C8 (amended): in every `process` call the envelope offset is the
`[-0.95·cutoff, 4·cutoff]` clamp of `envMod·env` plus the FM term when
`fmAmount > 0.001`, and the modulated cutoff the coefficients are computed
from is `clamp(cutoff + offset, 5, 0.45·sampleRate)`; whenever
`5 ≤ 0.45·sampleRate` (any realistic rate, e.g. the default 44100 Hz) the
result lies in `[5, 0.45·sampleRate]`.  (For `sampleRate < 100/9` the lower
bound fails; see the counterexample.) -/
theorem filter_modCutoff_clamped_amended (s : Filter303) (env fmInput : ℝ)
    (h : 5 ≤ 0.45 * s.sampleRate) :
    s.modCutoff env fmInput =
      min (max (s.cutoff + s.modAmt env fmInput) 5) (0.45 * s.sampleRate) ∧
    (¬ 0.001 < s.fmAmount → s.modAmt env fmInput =
      min (max (s.envMod * env) (-0.95 * s.cutoff)) (4 * s.cutoff)) ∧
    (0.001 < s.fmAmount → s.modAmt env fmInput =
      min (max (s.envMod * env) (-0.95 * s.cutoff)) (4 * s.cutoff)
        + s.fmAmount * fmInput * 0.5 * s.cutoff) ∧
    5 ≤ s.modCutoff env fmInput ∧
    s.modCutoff env fmInput ≤ 0.45 * s.sampleRate := by
  refine ⟨rfl, ?_, ?_, ?_, min_le_right _ _⟩
  · intro hfm
    show (if 0.001 < s.fmAmount then _ else _) = _
    rw [if_neg hfm]
  · intro hfm
    show (if 0.001 < s.fmAmount then _ else _) = _
    rw [if_pos hfm]
  · exact le_min (le_max_right _ _) h

/-- Witness for C8 at the default-constructed filter (44100 Hz). -/
theorem filter_modCutoff_clamped_amended_witness :
    (5 : ℝ) ≤ 0.45 * (Filter303.create 44100).sampleRate ∧
    (5 ≤ (Filter303.create 44100).modCutoff 1 0 ∧
      (Filter303.create 44100).modCutoff 1 0 ≤
        0.45 * (Filter303.create 44100).sampleRate) :=
  ⟨by norm_num [Filter303.create],
   ⟨(filter_modCutoff_clamped_amended (Filter303.create 44100) 1 0
       (by norm_num [Filter303.create])).2.2.2.1,
    (filter_modCutoff_clamped_amended (Filter303.create 44100) 1 0
       (by norm_num [Filter303.create])).2.2.2.2⟩⟩

/-- Counterexample for C8 as stated: for a filter constructed with sample
rate 10 Hz the modulated cutoff is `0.45·10 = 4.5 < 5`, so the claimed
unconditional lower bound of 5 Hz fails. -/
theorem filter_modCutoff_below_five :
    Filter303.modCutoff (Filter303.create 10) 0 0 = 4.5 ∧
      ¬ 5 ≤ Filter303.modCutoff (Filter303.create 10) 0 0 := by
  have h : Filter303.modCutoff (Filter303.create 10) 0 0 = 4.5 := by
    norm_num [Filter303.modCutoff, Filter303.modAmt, Filter303.create,
      min_def, max_def]
  exact ⟨h, by rw [h]; norm_num⟩

/-! #### Frame condition of `process` (C10) -/

lemma Filter303.runProcess_cutoff (ins : ℕ → ℝ × ℝ × ℝ × ℝ) :
    ∀ (n : ℕ) (s : Filter303), (Filter303.runProcess ins n s).cutoff = s.cutoff := by
  intro n
  induction n with
  | zero => intro s; rfl
  | succ n ih =>
      intro s
      rw [Filter303.runProcess]
      exact (ih _).trans rfl

lemma Filter303.runProcess_envMod (ins : ℕ → ℝ × ℝ × ℝ × ℝ) :
    ∀ (n : ℕ) (s : Filter303), (Filter303.runProcess ins n s).envMod = s.envMod := by
  intro n
  induction n with
  | zero => intro s; rfl
  | succ n ih =>
      intro s
      rw [Filter303.runProcess]
      exact (ih _).trans rfl

/-- Claim C10: `Filter303::process` mutates only the stage accumulators
`y1..y4` and the feedback-highpass accumulator `hp_state`: the configured
`cutoff`, `resonance`, `envMod`, `accentMod`, `fmAmount`, `sampleRate`,
`hp_cutoff` and `hp_coeff` are all unchanged by every call, so `getCutoff`
and `getEnvMod` return exactly the last values given to `setCutoff` and
`setEnvMod` no matter how many samples were processed. -/
theorem filter_process_frame :
    (∀ (s : Filter303) (input env accentEnv fmInput : ℝ),
      (s.process input env accentEnv fmInput).1.cutoff = s.cutoff ∧
      (s.process input env accentEnv fmInput).1.resonance = s.resonance ∧
      (s.process input env accentEnv fmInput).1.envMod = s.envMod ∧
      (s.process input env accentEnv fmInput).1.accentMod = s.accentMod ∧
      (s.process input env accentEnv fmInput).1.fmAmount = s.fmAmount ∧
      (s.process input env accentEnv fmInput).1.sampleRate = s.sampleRate ∧
      (s.process input env accentEnv fmInput).1.hp_cutoff = s.hp_cutoff ∧
      (s.process input env accentEnv fmInput).1.hp_coeff = s.hp_coeff) ∧
    (∀ (s : Filter303) (c : ℝ) (ins : ℕ → ℝ × ℝ × ℝ × ℝ) (n : ℕ),
      (Filter303.runProcess ins n (s.setCutoff c)).getCutoff = c) ∧
    (∀ (s : Filter303) (m : ℝ) (ins : ℕ → ℝ × ℝ × ℝ × ℝ) (n : ℕ),
      (Filter303.runProcess ins n (s.setEnvMod m)).getEnvMod = m) := by
  refine ⟨fun s input env accentEnv fmInput =>
    ⟨rfl, rfl, rfl, rfl, rfl, rfl, rfl, rfl⟩, ?_, ?_⟩
  · intro s c ins n
    show (Filter303.runProcess ins n (s.setCutoff c)).cutoff = c
    rw [Filter303.runProcess_cutoff]
    rfl
  · intro s m ins n
    show (Filter303.runProcess ins n (s.setEnvMod m)).envMod = m
    rw [Filter303.runProcess_envMod]
    rfl

/-! #### Oscillator output bounds (C9) -/

lemma Oscillator.polyBLEP_cases (s : Oscillator) (t : ℝ) :
    (t < s.phaseIncrement ∧
      s.polyBLEP t = t / s.phaseIncrement + t / s.phaseIncrement
        - t / s.phaseIncrement * (t / s.phaseIncrement) - 1) ∨
    (s.phaseIncrement ≤ t ∧ 1 - s.phaseIncrement < t ∧
      s.polyBLEP t = (t - 1) / s.phaseIncrement * ((t - 1) / s.phaseIncrement)
        + (t - 1) / s.phaseIncrement + (t - 1) / s.phaseIncrement + 1) ∨
    (s.phaseIncrement ≤ t ∧ t ≤ 1 - s.phaseIncrement ∧ s.polyBLEP t = 0) := by
  unfold Oscillator.polyBLEP
  by_cases h1 : t < s.phaseIncrement
  · exact Or.inl ⟨h1, by rw [if_pos h1]⟩
  · by_cases h2 : 1 - s.phaseIncrement < t
    · exact Or.inr (Or.inl ⟨not_lt.mp h1, h2, by rw [if_neg h1, if_pos h2]⟩)
    · exact Or.inr (Or.inr ⟨not_lt.mp h1, not_lt.mp h2, by rw [if_neg h1, if_neg h2]⟩)

/-- The rising-edge polyBLEP branch value lies in `[-1, 0]`. -/
lemma blep1_bounds {inc t : ℝ} (h0 : 0 ≤ t) (h : t < inc) :
    -1 ≤ t / inc + t / inc - t / inc * (t / inc) - 1 ∧
      t / inc + t / inc - t / inc * (t / inc) - 1 ≤ 0 := by
  have hincpos : 0 < inc := lt_of_le_of_lt h0 h
  have ha0 : 0 ≤ t / inc := div_nonneg h0 hincpos.le
  have ha1 : t / inc < 1 := (div_lt_one hincpos).mpr h
  constructor <;> nlinarith [sq_nonneg (t / inc - 1)]

/-- The falling-edge polyBLEP branch value lies in `[0, 1)`. -/
lemma blep2_bounds {inc t : ℝ} (hincpos : 0 < inc) (ht1 : t < 1)
    (ht : 1 - inc < t) :
    0 ≤ (t - 1) / inc * ((t - 1) / inc) + (t - 1) / inc + (t - 1) / inc + 1 ∧
      (t - 1) / inc * ((t - 1) / inc) + (t - 1) / inc + (t - 1) / inc + 1 < 1 := by
  have hu1 : (t - 1) / inc < 0 := div_neg_of_neg_of_pos (by linarith) hincpos
  have hu0 : -1 < (t - 1) / inc := (lt_div_iff₀ hincpos).mpr (by linarith)
  constructor <;> nlinarith [sq_nonneg ((t - 1) / inc + 1)]

/-- For a phase increment at most 1/2 (frequency at most half the sample
rate) the band-limited sawtooth sample lies in `[-1, 1]`. -/
lemma Oscillator.saw_bound (s : Oscillator)
    (hinc0 : 0 ≤ s.phaseIncrement) (hinc : s.phaseIncrement ≤ 1/2) :
    -1 ≤ s.sawOf ∧ s.sawOf ≤ 1 := by
  have hgoal : s.sawOf =
      2 * Int.fract (s.phase + 0.5) - 1 - s.polyBLEP (Int.fract (s.phase + 0.5)) := rfl
  rw [hgoal]
  set t := Int.fract (s.phase + 0.5) with ht_def
  have ht0 : 0 ≤ t := Int.fract_nonneg _
  have ht1 : t < 1 := Int.fract_lt_one _
  rcases s.polyBLEP_cases t with ⟨hb, he⟩ | ⟨hba, hbb, he⟩ | ⟨hba, hbb, he⟩ <;> rw [he]
  · have hincpos : 0 < s.phaseIncrement := lt_of_le_of_lt ht0 hb
    have hrw : t / s.phaseIncrement * s.phaseIncrement = t :=
      div_mul_cancel₀ t hincpos.ne'
    have ha0 : 0 ≤ t / s.phaseIncrement := div_nonneg ht0 hincpos.le
    have ha1 : t / s.phaseIncrement < 1 := (div_lt_one hincpos).mpr hb
    constructor <;>
      nlinarith [sq_nonneg (1 - s.phaseIncrement - t / s.phaseIncrement),
        mul_nonneg ha0 (by linarith : (0:ℝ) ≤ 2 - 2 * s.phaseIncrement - t / s.phaseIncrement)]
  · have hincpos : 0 < s.phaseIncrement := by linarith
    have hrw : (t - 1) / s.phaseIncrement * s.phaseIncrement = t - 1 :=
      div_mul_cancel₀ _ hincpos.ne'
    have hu1 : (t - 1) / s.phaseIncrement < 0 :=
      div_neg_of_neg_of_pos (by linarith) hincpos
    have hu0 : -1 < (t - 1) / s.phaseIncrement :=
      (lt_div_iff₀ hincpos).mpr (by linarith)
    constructor <;>
      nlinarith [sq_nonneg ((t - 1) / s.phaseIncrement + 1 - s.phaseIncrement),
        mul_nonneg (by linarith : (0:ℝ) ≤ (t - 1) / s.phaseIncrement + 1) hincpos.le,
        mul_nonneg (by linarith : (0:ℝ) ≤ -((t - 1) / s.phaseIncrement))
          (by linarith : (0:ℝ) ≤ (t - 1) / s.phaseIncrement + 2)]
  · constructor <;> [linarith; linarith]

set_option maxHeartbeats 1600000 in
/-- For a phase increment at most 1/2 and a pulse width in `[0.5, 0.53]`
(the only two values the source can set), the band-limited pulse sample lies
in `[-1, 1]`. -/
lemma Oscillator.square_bound (s : Oscillator)
    (hinc0 : 0 ≤ s.phaseIncrement) (hinc : s.phaseIncrement ≤ 1/2)
    (hph0 : 0 ≤ s.phase) (hph1 : s.phase < 1)
    (hpw0 : 1/2 ≤ s.pulseWidth) (hpw1 : s.pulseWidth ≤ 53/100) :
    -1 ≤ s.squareOf ∧ s.squareOf ≤ 1 := by
  unfold Oscillator.squareOf
  by_cases hcase : s.phase < s.pulseWidth
  · rw [if_pos hcase]
    have ht2 : Int.fract (s.phase + 1 - s.pulseWidth) = s.phase + 1 - s.pulseWidth :=
      Int.fract_eq_self.mpr ⟨by linarith, by linarith⟩
    rw [ht2]
    have ht2a : 1 - s.pulseWidth ≤ s.phase + 1 - s.pulseWidth := by linarith
    have ht2b : s.phase + 1 - s.pulseWidth < 1 := by linarith
    rcases s.polyBLEP_cases s.phase with ⟨hp1, hpe⟩ | ⟨hp1, hp2, hpe⟩ | ⟨hp1, hp2, hpe⟩ <;>
      rcases s.polyBLEP_cases (s.phase + 1 - s.pulseWidth) with
        ⟨hq1, hqe⟩ | ⟨hq1, hq2, hqe⟩ | ⟨hq1, hq2, hqe⟩ <;>
      rw [hpe, hqe]
    · -- both corrections on their rising-edge branch
      have hincpos : 0 < s.phaseIncrement := by linarith
      set a := s.phase / s.phaseIncrement with ha_def
      set c := (s.phase + 1 - s.pulseWidth) / s.phaseIncrement with hc_def
      have ha0 : 0 ≤ a := div_nonneg hph0 hincpos.le
      have ha1 : a < 1 := (div_lt_one hincpos).mpr hp1
      have hc0 : 0 ≤ c := div_nonneg (by linarith) hincpos.le
      have hc1 : c < 1 := (div_lt_one hincpos).mpr hq1
      have hac : a ≤ c := by
        rw [ha_def, hc_def]
        exact (div_le_div_iff_of_pos_right hincpos).mpr (by linarith)
      refine ⟨?_, ?_⟩
      · nlinarith [mul_nonneg ha0 (by linarith : (0:ℝ) ≤ 2 - a), sq_nonneg (1 - c)]
      · nlinarith [mul_nonneg (sub_nonneg.mpr hac) (by linarith : (0:ℝ) ≤ 2 - a - c)]
    · -- rising-edge at phase, falling-edge at the pulse-width discontinuity
      have hincpos : 0 < s.phaseIncrement := by linarith
      have h1 := blep1_bounds hph0 hp1
      have h2 := blep2_bounds hincpos ht2b hq2
      constructor <;> linarith
    · have h1 := blep1_bounds hph0 hp1
      constructor <;> linarith
    · -- impossible: phase near 1 while the falling edge is within one step
      constructor <;> linarith
    · -- both corrections on their falling-edge branch
      have hincpos : 0 < s.phaseIncrement := by linarith
      set a := (s.phase - 1) / s.phaseIncrement with ha_def
      set c := (s.phase + 1 - s.pulseWidth - 1) / s.phaseIncrement with hc_def
      have ha1 : a < 0 := div_neg_of_neg_of_pos (by linarith) hincpos
      have ha0 : -1 < a := (lt_div_iff₀ hincpos).mpr (by linarith)
      have hc1 : c < 0 := div_neg_of_neg_of_pos (by linarith) hincpos
      have hc0 : -1 < c := (lt_div_iff₀ hincpos).mpr (by linarith)
      have hac : a ≤ c := by
        rw [ha_def, hc_def]
        exact (div_le_div_iff_of_pos_right hincpos).mpr (by linarith)
      refine ⟨?_, ?_⟩
      · nlinarith [sq_nonneg (a + 1),
          mul_nonneg (by linarith : (0:ℝ) ≤ -c) (by linarith : (0:ℝ) ≤ c + 2)]
      · nlinarith [mul_nonneg (sub_nonneg.mpr hac) (by linarith : (0:ℝ) ≤ c + a + 2)]
    · -- impossible: phase near 1 but the falling edge unseen
      constructor <;> linarith
    · -- impossible: phase at least one step in, falling edge within one step
      constructor <;> linarith
    · have hincpos : 0 < s.phaseIncrement := by linarith
      have h2 := blep2_bounds hincpos ht2b hq2
      constructor <;> linarith
    · constructor <;> norm_num
  · rw [if_neg hcase]
    have hpz : s.pulseWidth ≤ s.phase := not_lt.mp hcase
    have harg : s.phase + 1 - s.pulseWidth = (s.phase - s.pulseWidth) + 1 := by ring
    have ht2 : Int.fract (s.phase + 1 - s.pulseWidth) = s.phase - s.pulseWidth := by
      rw [harg, Int.fract_add_one]
      exact Int.fract_eq_self.mpr ⟨by linarith, by linarith⟩
    rw [ht2]
    have ht20 : 0 ≤ s.phase - s.pulseWidth := by linarith
    rcases s.polyBLEP_cases s.phase with ⟨hp1, hpe⟩ | ⟨hp1, hp2, hpe⟩ | ⟨hp1, hp2, hpe⟩ <;>
      rcases s.polyBLEP_cases (s.phase - s.pulseWidth) with
        ⟨hq1, hqe⟩ | ⟨hq1, hq2, hqe⟩ | ⟨hq1, hq2, hqe⟩ <;>
      rw [hpe, hqe]
    · constructor <;> linarith
    · constructor <;> linarith
    · constructor <;> linarith
    · have hincpos : 0 < s.phaseIncrement := by linarith
      have h1 := blep2_bounds hincpos hph1 hp2
      have h2 := blep1_bounds ht20 hq1
      constructor <;> linarith
    · constructor <;> linarith
    · have hincpos : 0 < s.phaseIncrement := by linarith
      have h1 := blep2_bounds hincpos hph1 hp2
      constructor <;> linarith
    · have h2 := blep1_bounds ht20 hq1
      constructor <;> linarith
    · constructor <;> linarith
    · constructor <;> norm_num

/-- The sample `Oscillator::process` returns, written out: the sub-blend of
the square/saw blend with the sub-oscillator square, scaled by the 0.707
headroom factor.  All components read the post-`tick` state. -/
lemma Oscillator.process_snd (s : Oscillator) :
    s.process.2 = ((1 - s.tick.subBlend) *
        ((1 - s.tick.blend) * s.tick.squareOf + s.tick.blend * s.tick.sawOf)
      + s.tick.subBlend * s.tick.subValOf) * 0.707 := rfl

lemma convex_blend_bound {b x y : ℝ} (hb0 : 0 ≤ b) (hb1 : b ≤ 1)
    (hx0 : -1 ≤ x) (hx1 : x ≤ 1) (hy0 : -1 ≤ y) (hy1 : y ≤ 1) :
    -1 ≤ (1 - b) * x + b * y ∧ (1 - b) * x + b * y ≤ 1 := by
  constructor <;> nlinarith

/-- Claim C9 (amended): for every reachable oscillator state whose
post-`tick` phase increment is at most 1/2 — i.e. whose current frequency
does not exceed half the sample rate — `Oscillator::process` returns a
sample of magnitude at most the 0.707 headroom factor, in particular in
`[-1, 1]`.  (For frequencies above half the sample rate the polyBLEP
corrections can overshoot and the sample can exceed 1; see the
counterexample.) -/
theorem osc_process_output_bounded_amended (s : Oscillator) (h : s.Reachable)
    (hinc : s.tick.phaseIncrement ≤ 1/2) :
    |s.process.2| ≤ 707/1000 ∧ s.process.2 ∈ Set.Icc (-1 : ℝ) 1 := by
  have inv := (Oscillator.reachable_inv h).tick
  have hsq := Oscillator.square_bound s.tick inv.phaseIncrement_nonneg hinc
    inv.phase_nonneg inv.phase_lt_one inv.pulseWidth_ge inv.pulseWidth_le
  have hsaw := Oscillator.saw_bound s.tick inv.phaseIncrement_nonneg hinc
  have hsub : -1 ≤ s.tick.subValOf ∧ s.tick.subValOf ≤ 1 := by
    unfold Oscillator.subValOf
    split <;> norm_num
  have hv1 := convex_blend_bound inv.blend_nonneg inv.blend_le_one
    hsq.1 hsq.2 hsaw.1 hsaw.2
  have hv2 := convex_blend_bound inv.subBlend_nonneg inv.subBlend_le_one
    hv1.1 hv1.2 hsub.1 hsub.2
  rw [Oscillator.process_snd]
  constructor
  · rw [abs_mul]
    have h7 : |(0.707 : ℝ)| = 707/1000 := by
      rw [abs_of_pos] <;> norm_num
    rw [h7]
    have habs : |(1 - s.tick.subBlend) *
        ((1 - s.tick.blend) * s.tick.squareOf + s.tick.blend * s.tick.sawOf)
      + s.tick.subBlend * s.tick.subValOf| ≤ 1 := abs_le.mpr ⟨hv2.1, hv2.2⟩
    nlinarith [abs_nonneg ((1 - s.tick.subBlend) *
        ((1 - s.tick.blend) * s.tick.squareOf + s.tick.blend * s.tick.sawOf)
      + s.tick.subBlend * s.tick.subValOf)]
  · constructor <;> nlinarith [hv2.1, hv2.2]

/-- Witness for C9 (amended) at the default-constructed oscillator
(440 Hz / 44100 Hz, phase increment 0.01). -/
theorem osc_process_output_bounded_amended_witness :
    |Oscillator.init.process.2| ≤ 707/1000 ∧
      Oscillator.init.process.2 ∈ Set.Icc (-1 : ℝ) 1 :=
  osc_process_output_bounded_amended Oscillator.init Oscillator.Reachable.init
    (by norm_num [Oscillator.tick, Oscillator.init])

/-- The C9 counterexample state: sample rate 1000 Hz, pure-saw blend, then
frequency 4499 Hz (phase increment 4.499), advanced by one `process` call so
the phase sits at 0.499, one half-sample before the wrapped saw
discontinuity. -/
noncomputable def loudOsc : Oscillator :=
  (((Oscillator.init.setSampleRate 1000).setBlend 1).setFrequency 4499).process.1

/-- Counterexample for C9 as stated: `loudOsc` is reachable through the
public interface with positive frequency and sample rate, yet the next
`process` call returns a sample strictly greater than 1 (about 1.133) —
for frequencies beyond the sample rate the polyBLEP-corrected sawtooth
overshoots and the 0.707 headroom scaling does not bound the output by 1. -/
theorem osc_process_output_exceeds_one :
    Oscillator.Reachable loudOsc ∧ 1 < loudOsc.process.2 := by
  constructor
  · exact Oscillator.Reachable.process
      (Oscillator.Reachable.setFrequency 4499 (by norm_num)
        (Oscillator.Reachable.setBlend 1
          (Oscillator.Reachable.setSampleRate 1000 (by norm_num)
            Oscillator.Reachable.init)))
  · have hphase : loudOsc.phase = 499/1000 := by
      norm_num [loudOsc, Oscillator.process, Oscillator.tick, Oscillator.setFrequency,
        Oscillator.setBlend, Oscillator.setSampleRate, Oscillator.init, wrap01,
        Int.floor_eq_iff]
    have hpi : loudOsc.phaseIncrement = 4499/1000 := by
      norm_num [loudOsc, Oscillator.process, Oscillator.tick, Oscillator.setFrequency,
        Oscillator.setBlend, Oscillator.setSampleRate, Oscillator.init, wrap01]
    have hb : loudOsc.blend = 1 := by
      norm_num [loudOsc, Oscillator.process, Oscillator.tick, Oscillator.setFrequency,
        Oscillator.setBlend, Oscillator.setSampleRate, Oscillator.init]
    have hsb : loudOsc.subBlend = 0 := by
      norm_num [loudOsc, Oscillator.process, Oscillator.tick, Oscillator.setFrequency,
        Oscillator.setBlend, Oscillator.setSampleRate, Oscillator.init]
    have hgc : loudOsc.glideCounter = 0 := by
      norm_num [loudOsc, Oscillator.process, Oscillator.tick, Oscillator.setFrequency,
        Oscillator.setBlend, Oscillator.setSampleRate, Oscillator.init]
    have htick : loudOsc.tick = loudOsc := Oscillator.tick_of_nonpos (le_of_eq hgc)
    have hsaw : loudOsc.sawOf = 2 * (999/1000) - 1 -
        (999/4499 + 999/4499 - 999/4499 * (999/4499) - 1) := by
      have hfr : Int.fract (loudOsc.phase + 0.5) = 999/1000 := by
        rw [hphase]
        rw [Int.fract_eq_self.mpr (by norm_num)]
        norm_num
      have hsg : loudOsc.sawOf = 2 * Int.fract (loudOsc.phase + 0.5) - 1 -
          loudOsc.polyBLEP (Int.fract (loudOsc.phase + 0.5)) := rfl
      rw [hsg, hfr]
      unfold Oscillator.polyBLEP
      rw [hpi, if_pos (by norm_num)]
      norm_num
    rw [Oscillator.process_snd, htick, hb, hsb, hsaw]
    norm_num

end Pico303
